import Mathlib

/-!
Verification of the aggregation and gap-computation pipeline of the
`logicaf1` repository (files `qualydash.py`, `racedash.py`) against its
specification.

Conventions of the shallow embedding:
* Durations are exact rationals (seconds) or, for the string formatters,
  exact natural numbers of milliseconds: the dashboards' timing data has
  millisecond resolution, at which the source's 3-decimal float rendering
  is exact.
* A pandas cell that is NaN/empty or an unparseable string is a `RawTime`
  constructor; `parse_time` is total (the source's try/except returns None
  instead of raising).
* Code that raises on some input (an out-of-bounds `iloc[0]`) is embedded
  as an `Option`-returning function, `none` marking the raised exception.
* pandas `sort_values` is embedded as `List.insertionSort`; the claims
  settled here do not depend on the tie order of the sort.
-/

namespace F1

/-- A raw duration cell as found in the CSV: absent (NaN or the empty
string), a malformed string, or a parseable duration whose value in
seconds is `v`. -/
inductive RawTime
  | missing
  | malformed
  | valid (v : ℚ)
deriving DecidableEq

/-- Model of `parse_time` (qualydash.py lines 88-93): NaN and empty cells
map to None, unparseable strings hit the except branch and map to None,
and parseable cells map to their value in seconds.  The function is total:
no input raises. -/
def parse_time : RawTime → Option ℚ
  | .missing => none
  | .malformed => none
  | .valid v => some v

/-- One lap record of the session table, with the columns the qualifying
pipeline reads (driver, team, raw lap time). -/
structure LapRow where
  driver : String
  team : String
  lapTime : RawTime
deriving DecidableEq

/-- A session row after `parse_time` has been applied to the LapTime
column and rows with a null LapTime dropped. -/
structure SessionRow where
  driver : String
  team : String
  lapTime : ℚ
deriving DecidableEq

/-- The LapTime column after `session[col].apply(parse_time)` followed by
`session.dropna(subset=["LapTime"])` (qualydash.py lines 95-98). -/
def validLaps (laps : List LapRow) : List SessionRow :=
  laps.filterMap (fun l => (parse_time l.lapTime).map (fun v => ⟨l.driver, l.team, v⟩))

/-- The comparison used by `sort_values("LapTime")`. -/
def lapLe (a b : SessionRow) : Prop := a.lapTime ≤ b.lapTime

instance : DecidableRel lapLe :=
  fun a b => inferInstanceAs (Decidable (a.lapTime ≤ b.lapTime))

instance : IsTotal SessionRow lapLe := ⟨fun a b => le_total a.lapTime b.lapTime⟩

instance : IsTrans SessionRow lapLe := ⟨fun _ _ _ h h' => le_trans h h'⟩

/-- Model of `drop_duplicates("Driver")` (keep the first row of each
driver), with `seen` the drivers already emitted. -/
def dropDupDriver (seen : List String) : List SessionRow → List SessionRow
  | [] => []
  | r :: rs =>
    if r.driver ∈ seen then dropDupDriver seen rs
    else r :: dropDupDriver (r.driver :: seen) rs

/-- Model of `best = session.sort_values("LapTime").drop_duplicates("Driver")`
(qualydash.py line 101). -/
def best (laps : List LapRow) : List SessionRow :=
  dropDupDriver [] (List.insertionSort lapLe (validLaps laps))

/-- Model of `best["Q_Pos"] = best.index + 1` (qualydash.py line 103):
each row paired with its 1-based position. -/
def bestRanked (laps : List LapRow) : List (ℕ × SessionRow) :=
  (best laps).enum.map (fun p => (p.1 + 1, p.2))

/-- The Gap to Pole branch (qualydash.py lines 114-116):
`pole = best.iloc[0]["LapTime"]; best["Gap"] = best["LapTime"] - pole`.
On an empty `best`, `iloc[0]` raises IndexError; that exception is the
`none` value. -/
def gapToPole (laps : List LapRow) : Option (List (SessionRow × ℚ)) :=
  match best laps with
  | [] => none
  | b :: bs => some ((b :: bs).map (fun r => (r, r.lapTime - b.lapTime)))

/-- Model of `best[best["Team"] == row["Team"]].sort_values("LapTime")`
(qualydash.py line 122). -/
def teamLaps (bl : List SessionRow) (t : String) : List SessionRow :=
  List.insertionSort lapLe (bl.filter (fun r => decide (r.team = t)))

/-- One iteration of the teammate-gap loop (qualydash.py lines 121-132):
with at least two rows in the driver's team, the row tying the fastest
time is compared to the second row of the sorted team, every other row to
the fastest; a singleton team gets gap 0. -/
def teammate_gap (bl : List SessionRow) (r : SessionRow) : ℚ :=
  match teamLaps bl r.team with
  | t0 :: t1 :: _ =>
    if r.lapTime = t0.lapTime then r.lapTime - t1.lapTime
    else r.lapTime - t0.lapTime
  | _ => 0

/-- The Gap to Teammate branch (qualydash.py lines 120-134): every row of
`best` paired with its teammate gap. -/
def teammateGaps (laps : List LapRow) : List (SessionRow × ℚ) :=
  (best laps).map (fun r => (r, teammate_gap (best laps) r))

/-- The maximum of a nonempty column, `none` on an empty one (pandas
`Series.max`). -/
def colMax : List ℚ → Option ℚ
  | [] => none
  | x :: xs => some ((colMax xs).elim x (fun m => max x m))

/-- Model of `max_gap` in Gap to Pole mode (qualydash.py lines 112-118):
the maximum of the Gap column, replaced by 1 when it is 0 (the
initialisation value 1.0 stands when the branch raised). -/
def max_gap (laps : List LapRow) : ℚ :=
  match gapToPole laps with
  | none => 1
  | some g =>
    match colMax (g.map (fun q => q.2)) with
    | none => 1
    | some m => if m = 0 then 1 else m

/-- Model of `pct = (gap_val / max_gap) * 100 if max_gap > 0 else 0`
(qualydash.py line 161). -/
def pct (maxg g : ℚ) : ℚ := if 0 < maxg then g / maxg * 100 else 0

/- ### Helper lemmas about the best-lap selection -/

theorem dropDupDriver_sublist (seen : List String) :
    ∀ l : List SessionRow, (dropDupDriver seen l).Sublist l := by
  intro l
  induction l generalizing seen with
  | nil => simp [dropDupDriver]
  | cons r rs ih =>
    by_cases h : r.driver ∈ seen
    · simp only [dropDupDriver, if_pos h]
      exact (ih seen).cons r
    · simp only [dropDupDriver, if_neg h]
      exact (ih (r.driver :: seen)).cons₂ r

theorem mem_of_mem_dropDupDriver {seen : List String} {l : List SessionRow}
    {r : SessionRow} (h : r ∈ dropDupDriver seen l) : r ∈ l :=
  (dropDupDriver_sublist seen l).subset h

theorem driver_not_seen_of_mem_dropDupDriver {seen : List String}
    {l : List SessionRow} {r : SessionRow} (h : r ∈ dropDupDriver seen l) :
    r.driver ∉ seen := by
  induction l generalizing seen with
  | nil => simp [dropDupDriver] at h
  | cons x xs ih =>
    by_cases hx : x.driver ∈ seen
    · rw [dropDupDriver, if_pos hx] at h
      exact ih h
    · rw [dropDupDriver, if_neg hx] at h
      rcases List.mem_cons.mp h with rfl | h
      · exact hx
      · intro hc
        exact ih h (List.mem_cons_of_mem _ hc)

theorem dropDupDriver_min {l : List SessionRow} (hs : l.Pairwise lapLe) :
    ∀ {seen : List String} {r : SessionRow}, r ∈ dropDupDriver seen l →
      ∀ x ∈ l, x.driver = r.driver → r.lapTime ≤ x.lapTime := by
  induction l with
  | nil => intro seen r h; simp [dropDupDriver] at h
  | cons y ys ih =>
    intro seen r h x hx hdx
    rcases List.pairwise_cons.mp hs with ⟨hy, hys⟩
    by_cases hseen : y.driver ∈ seen
    · rw [dropDupDriver, if_pos hseen] at h
      rcases List.mem_cons.mp hx with rfl | hx
      · exact absurd (hdx ▸ hseen) (driver_not_seen_of_mem_dropDupDriver h)
      · exact ih hys h x hx hdx
    · rw [dropDupDriver, if_neg hseen] at h
      rcases List.mem_cons.mp h with rfl | h
      · rcases List.mem_cons.mp hx with rfl | hx
        · exact le_refl _
        · exact hy x hx
      · rcases List.mem_cons.mp hx with rfl | hx
        · have hns := driver_not_seen_of_mem_dropDupDriver h
          rw [hdx] at hns
          exact absurd (List.mem_cons_self _ _) hns
        · exact ih hys h x hx hdx

theorem nodup_map_driver_dropDupDriver (seen : List String) :
    ∀ l : List SessionRow, ((dropDupDriver seen l).map (fun r => r.driver)).Nodup := by
  intro l
  induction l generalizing seen with
  | nil => simp [dropDupDriver]
  | cons r rs ih =>
    by_cases h : r.driver ∈ seen
    · rw [dropDupDriver, if_pos h]; exact ih seen
    · rw [dropDupDriver, if_neg h]
      refine List.nodup_cons.mpr ⟨?_, ih (r.driver :: seen)⟩
      intro hc
      rcases List.mem_map.mp hc with ⟨x, hx, hdx⟩
      exact driver_not_seen_of_mem_dropDupDriver hx
        (hdx ▸ List.mem_cons_self _ _)

theorem mem_map_driver_dropDupDriver {d : String} :
    ∀ {l : List SessionRow} {seen : List String},
      d ∈ l.map (fun r => r.driver) → d ∉ seen →
      d ∈ (dropDupDriver seen l).map (fun r => r.driver) := by
  intro l
  induction l with
  | nil => intro seen h; simp at h
  | cons r rs ih =>
    intro seen h hseen
    rcases List.mem_cons.mp h with h1 | h1
    · have hr : r.driver = d := h1.symm
      by_cases hs : r.driver ∈ seen
      · exact absurd (hr ▸ hs) hseen
      · rw [dropDupDriver, if_neg hs]
        simp [hr]
    · by_cases hs : r.driver ∈ seen
      · rw [dropDupDriver, if_pos hs]
        exact ih h1 hseen
      · rw [dropDupDriver, if_neg hs]
        by_cases hrd : r.driver = d
        · simp [hrd]
        · have : d ∉ r.driver :: seen := by
            intro hc
            rcases List.mem_cons.mp hc with hc | hc
            · exact hrd hc.symm
            · exact hseen hc
          exact List.mem_cons_of_mem _ (ih h1 this)

theorem best_sorted (laps : List LapRow) : (best laps).Pairwise lapLe :=
  List.Pairwise.sublist (dropDupDriver_sublist [] _)
    (List.sorted_insertionSort lapLe (validLaps laps))

theorem mem_validLaps_of_mem_best {laps : List LapRow} {r : SessionRow}
    (h : r ∈ best laps) : r ∈ validLaps laps :=
  (List.perm_insertionSort lapLe (validLaps laps)).subset (mem_of_mem_dropDupDriver h)

theorem mem_validLaps_iff {laps : List LapRow} {r : SessionRow} :
    r ∈ validLaps laps ↔
      ∃ l ∈ laps, l.driver = r.driver ∧ l.team = r.team ∧ parse_time l.lapTime = some r.lapTime := by
  constructor
  · intro h
    rcases List.mem_filterMap.mp h with ⟨l, hl, hparse⟩
    rcases hv : parse_time l.lapTime with _ | v
    · rw [hv] at hparse; simp [Option.map] at hparse
    · rw [hv] at hparse
      simp only [Option.map_some'] at hparse
      obtain ⟨hd, ht, hlt⟩ : l.driver = r.driver ∧ l.team = r.team ∧ v = r.lapTime := by
        have := hparse
        injection this with h'
        refine ⟨congrArg SessionRow.driver h', congrArg SessionRow.team h',
          congrArg SessionRow.lapTime h'⟩
      exact ⟨l, hl, hd, ht, hlt ▸ hv⟩
  · rintro ⟨l, hl, hd, ht, hp⟩
    refine List.mem_filterMap.mpr ⟨l, hl, ?_⟩
    rw [hp, Option.map_some']
    cases r
    simp_all

theorem mem_sorted_validLaps_iff {laps : List LapRow} {r : SessionRow} :
    r ∈ List.insertionSort lapLe (validLaps laps) ↔ r ∈ validLaps laps :=
  (List.perm_insertionSort lapLe (validLaps laps)).mem_iff

/-- C1: the best-lap selector discards rows whose lapTime is missing or
unparseable, produces at most one row per driver — a row carrying that
driver's minimum valid lapTime — sorted non-decreasing by lapTime with
position the 1-based rank in that order; a driver with zero valid laps
does not appear and a driver with a valid lap does. -/
theorem C1_best_lap_selector (laps : List LapRow) (r : SessionRow) (hr : r ∈ best laps) :
    ((best laps).map (fun x => x.driver)).Nodup ∧
    (best laps).Pairwise (fun a b => a.lapTime ≤ b.lapTime) ∧
    (bestRanked laps).map (fun p => p.1) = List.range' 1 (best laps).length ∧
    (∃ l ∈ laps, l.driver = r.driver ∧ l.team = r.team ∧
      parse_time l.lapTime = some r.lapTime) ∧
    (∀ l ∈ laps, l.driver = r.driver →
      ∀ v : ℚ, parse_time l.lapTime = some v → r.lapTime ≤ v) ∧
    (∀ d : String,
      (∃ l ∈ laps, l.driver = d ∧ parse_time l.lapTime ≠ none) ↔
        d ∈ (best laps).map (fun x => x.driver)) := by
  refine ⟨nodup_map_driver_dropDupDriver [] _, best_sorted laps, ?_, ?_, ?_, ?_⟩
  · unfold bestRanked
    rw [List.map_map]
    have h1 : (Prod.fst ∘ fun p : ℕ × SessionRow => (p.1 + 1, p.2)) =
        ((fun x => x + 1) ∘ Prod.fst) := rfl
    rw [h1, ← List.map_map, List.enum_map_fst, List.range'_eq_map_range]
    apply List.map_congr_left
    intro a _
    omega
  · exact mem_validLaps_iff.mp (mem_validLaps_of_mem_best hr)
  · intro l hl hld v hv
    have hmem : (⟨l.driver, l.team, v⟩ : SessionRow) ∈ validLaps laps :=
      mem_validLaps_iff.mpr ⟨l, hl, rfl, rfl, hv⟩
    exact dropDupDriver_min (List.sorted_insertionSort lapLe (validLaps laps)) hr
      _ (mem_sorted_validLaps_iff.mpr hmem) hld
  · intro d
    constructor
    · rintro ⟨l, hl, hld, hp⟩
      rcases hv : parse_time l.lapTime with _ | v
      · exact absurd hv hp
      · have hmem : (⟨l.driver, l.team, v⟩ : SessionRow) ∈ validLaps laps :=
          mem_validLaps_iff.mpr ⟨l, hl, rfl, rfl, hv⟩
        have : d ∈ (List.insertionSort lapLe (validLaps laps)).map (fun x => x.driver) :=
          List.mem_map.mpr ⟨_, mem_sorted_validLaps_iff.mpr hmem, hld⟩
        exact mem_map_driver_dropDupDriver this (by simp)
    · intro hd
      rcases List.mem_map.mp hd with ⟨x, hx, hxd⟩
      rcases mem_validLaps_iff.mp (mem_validLaps_of_mem_best hx) with ⟨l, hl, hld, _, hp⟩
      exact ⟨l, hl, hxd ▸ hld, by rw [hp]; exact Option.some_ne_none _⟩

/-- A concrete session for the C1 witness: two valid laps for VER, one
valid lap for PER, one unparseable lap for HAM. -/
def lapsC1 : List LapRow :=
  [⟨"VER", "Red Bull", .valid 90⟩, ⟨"PER", "Red Bull", .valid 91⟩,
   ⟨"VER", "Red Bull", .valid (92 : ℚ)⟩, ⟨"HAM", "Mercedes", .malformed⟩]

theorem C1_best_lap_selector_witness :
    ((best lapsC1).map (fun x => x.driver)).Nodup ∧
    (best lapsC1).Pairwise (fun a b => a.lapTime ≤ b.lapTime) ∧
    (bestRanked lapsC1).map (fun p => p.1) = List.range' 1 (best lapsC1).length ∧
    (∃ l ∈ lapsC1, l.driver = (⟨"VER", "Red Bull", 90⟩ : SessionRow).driver ∧
      l.team = (⟨"VER", "Red Bull", 90⟩ : SessionRow).team ∧
      parse_time l.lapTime = some (⟨"VER", "Red Bull", 90⟩ : SessionRow).lapTime) ∧
    (∀ l ∈ lapsC1, l.driver = (⟨"VER", "Red Bull", 90⟩ : SessionRow).driver →
      ∀ v : ℚ, parse_time l.lapTime = some v →
        (⟨"VER", "Red Bull", 90⟩ : SessionRow).lapTime ≤ v) ∧
    (∀ d : String,
      (∃ l ∈ lapsC1, l.driver = d ∧ parse_time l.lapTime ≠ none) ↔
        d ∈ (best lapsC1).map (fun x => x.driver)) :=
  C1_best_lap_selector lapsC1 ⟨"VER", "Red Bull", 90⟩ (by decide)

/-- C2: in gap-to-pole mode, on a non-empty ranking, every row's gap is
its lapTime minus the position-1 row's lapTime; the position-1 row's gap
is exactly 0 and every gap is nonnegative. -/
theorem C2_gap_to_pole (laps : List LapRow) (g : List (SessionRow × ℚ))
    (hg : gapToPole laps = some g) :
    ∃ p0 rest, g = p0 :: rest ∧ p0.2 = 0 ∧
      ∀ q ∈ g, q.2 = q.1.lapTime - p0.1.lapTime ∧ 0 ≤ q.2 := by
  unfold gapToPole at hg
  rcases hb : best laps with _ | ⟨b, bs⟩
  · rw [hb] at hg; exact absurd hg (by simp)
  · rw [hb] at hg
    have hge : g = (b :: bs).map (fun r => (r, r.lapTime - b.lapTime)) :=
      (Option.some_injective _ hg).symm
    refine ⟨(b, b.lapTime - b.lapTime), bs.map (fun r => (r, r.lapTime - b.lapTime)),
      by rw [hge]; rfl, sub_self _, ?_⟩
    intro q hq
    rw [hge] at hq
    rcases List.mem_map.mp hq with ⟨x, hx, hqx⟩
    have hsorted := best_sorted laps
    rw [hb] at hsorted
    rcases List.pairwise_cons.mp hsorted with ⟨hball, _⟩
    have hble : b.lapTime ≤ x.lapTime := by
      rcases List.mem_cons.mp hx with rfl | hx
      · exact le_refl _
      · exact hball x hx
    subst hqx
    exact ⟨rfl, by simpa using hble⟩

/-- A concrete session for the C2 witness. -/
def lapsC2 : List LapRow :=
  [⟨"LEC", "Ferrari", .valid 91⟩, ⟨"VER", "Red Bull", .valid 90⟩,
   ⟨"OCO", "Alpine", .missing⟩]

theorem C2_gap_to_pole_witness :
    ∃ p0 rest,
      [((⟨"VER", "Red Bull", 90⟩ : SessionRow), (90 : ℚ) - 90),
       ((⟨"LEC", "Ferrari", 91⟩ : SessionRow), (91 : ℚ) - 90)] = p0 :: rest ∧ p0.2 = 0 ∧
      ∀ q ∈ [((⟨"VER", "Red Bull", 90⟩ : SessionRow), (90 : ℚ) - 90),
             ((⟨"LEC", "Ferrari", 91⟩ : SessionRow), (91 : ℚ) - 90)],
        q.2 = q.1.lapTime - p0.1.lapTime ∧ 0 ≤ q.2 :=
  C2_gap_to_pole lapsC2
    [((⟨"VER", "Red Bull", 90⟩ : SessionRow), (90 : ℚ) - 90),
     ((⟨"LEC", "Ferrari", 91⟩ : SessionRow), (91 : ℚ) - 90)] rfl

theorem teamLaps_sorted (bl : List SessionRow) (t : String) :
    (teamLaps bl t).Pairwise lapLe :=
  List.sorted_insertionSort lapLe _

theorem mem_teamLaps {bl : List SessionRow} {t : String} {r : SessionRow} :
    r ∈ teamLaps bl t ↔ r ∈ bl ∧ r.team = t := by
  unfold teamLaps
  rw [(List.perm_insertionSort lapLe _).mem_iff, List.mem_filter]
  simp

theorem teammate_gap_eq {bl : List SessionRow} {r t0 t1 : SessionRow}
    {rest : List SessionRow} (ht : teamLaps bl r.team = t0 :: t1 :: rest) :
    teammate_gap bl r =
      if r.lapTime = t0.lapTime then r.lapTime - t1.lapTime
      else r.lapTime - t0.lapTime := by
  unfold teammate_gap
  rw [ht]

/-- C3: in gap-to-peer mode, within a team group of size at least two, a
member tying the fastest time has gap lapTime minus the second-fastest
member's lapTime, which is nonpositive, every other member has gap
lapTime minus the fastest member's lapTime, which is nonnegative, and for
a two-member group the two gaps are additive inverses. -/
theorem C3_teammate_gaps (laps : List LapRow) (r : SessionRow) (hr : r ∈ best laps)
    (t0 t1 : SessionRow) (rest : List SessionRow)
    (ht : teamLaps (best laps) r.team = t0 :: t1 :: rest) :
    (r.lapTime = t0.lapTime →
      teammate_gap (best laps) r = r.lapTime - t1.lapTime ∧
        teammate_gap (best laps) r ≤ 0) ∧
    (r.lapTime ≠ t0.lapTime →
      teammate_gap (best laps) r = r.lapTime - t0.lapTime ∧
        0 ≤ teammate_gap (best laps) r) ∧
    (rest = [] →
      teammate_gap (best laps) t0 + teammate_gap (best laps) t1 = 0) := by
  have hsorted := teamLaps_sorted (best laps) r.team
  rw [ht] at hsorted
  rcases List.pairwise_cons.mp hsorted with ⟨h0all, htail⟩
  have h01 : t0.lapTime ≤ t1.lapTime := h0all t1 (List.mem_cons_self _ _)
  have hrmem : r ∈ teamLaps (best laps) r.team := mem_teamLaps.mpr ⟨hr, rfl⟩
  have ht0mem : t0 ∈ teamLaps (best laps) r.team := ht ▸ List.mem_cons_self _ _
  have ht1mem : t1 ∈ teamLaps (best laps) r.team :=
    ht ▸ List.mem_cons_of_mem _ (List.mem_cons_self _ _)
  have ht0team : t0.team = r.team := (mem_teamLaps.mp ht0mem).2
  have ht1team : t1.team = r.team := (mem_teamLaps.mp ht1mem).2
  refine ⟨?_, ?_, ?_⟩
  · intro heq
    rw [teammate_gap_eq ht, if_pos heq]
    exact ⟨rfl, sub_nonpos.mpr (heq ▸ h01)⟩
  · intro hne
    rw [teammate_gap_eq ht, if_neg hne]
    refine ⟨rfl, sub_nonneg.mpr ?_⟩
    rw [ht] at hrmem
    rcases List.mem_cons.mp hrmem with rfl | hrmem'
    · exact absurd rfl hne
    · exact h0all r hrmem'
  · intro hrest
    subst hrest
    have hg0 : teammate_gap (best laps) t0 = t0.lapTime - t1.lapTime := by
      have ht0 : teamLaps (best laps) t0.team = t0 :: t1 :: [] := by rw [ht0team, ht]
      rw [teammate_gap_eq ht0, if_pos rfl]
    have hg1 : teammate_gap (best laps) t1 =
        if t1.lapTime = t0.lapTime then t1.lapTime - t1.lapTime
        else t1.lapTime - t0.lapTime := by
      have ht1 : teamLaps (best laps) t1.team = t0 :: t1 :: [] := by rw [ht1team, ht]
      exact teammate_gap_eq ht1
    rw [hg0, hg1]
    by_cases htie : t1.lapTime = t0.lapTime
    · rw [if_pos htie, htie]; ring
    · rw [if_neg htie]; ring

/-- A concrete session for the C3 witness: a two-member Red Bull group
and a singleton Mercedes group. -/
def lapsC3 : List LapRow :=
  [⟨"VER", "Red Bull", .valid 90⟩, ⟨"PER", "Red Bull", .valid (92 : ℚ)⟩,
   ⟨"HAM", "Mercedes", .valid 91⟩]

theorem C3_teammate_gaps_witness :
    ((⟨"VER", "Red Bull", 90⟩ : SessionRow).lapTime =
        (⟨"VER", "Red Bull", 90⟩ : SessionRow).lapTime →
      teammate_gap (best lapsC3) ⟨"VER", "Red Bull", 90⟩ =
          (⟨"VER", "Red Bull", 90⟩ : SessionRow).lapTime -
            (⟨"PER", "Red Bull", 92⟩ : SessionRow).lapTime ∧
        teammate_gap (best lapsC3) ⟨"VER", "Red Bull", 90⟩ ≤ 0) ∧
    ((⟨"VER", "Red Bull", 90⟩ : SessionRow).lapTime ≠
        (⟨"VER", "Red Bull", 90⟩ : SessionRow).lapTime →
      teammate_gap (best lapsC3) ⟨"VER", "Red Bull", 90⟩ =
          (⟨"VER", "Red Bull", 90⟩ : SessionRow).lapTime -
            (⟨"VER", "Red Bull", 90⟩ : SessionRow).lapTime ∧
        0 ≤ teammate_gap (best lapsC3) ⟨"VER", "Red Bull", 90⟩) ∧
    (([] : List SessionRow) = [] →
      teammate_gap (best lapsC3) ⟨"VER", "Red Bull", 90⟩ +
        teammate_gap (best lapsC3) ⟨"PER", "Red Bull", 92⟩ = 0) :=
  C3_teammate_gaps lapsC3 ⟨"VER", "Red Bull", 90⟩ (by decide)
    ⟨"VER", "Red Bull", 90⟩ ⟨"PER", "Red Bull", 92⟩ [] (by decide)

/- ### Duration formatting (qualydash.py fmt_time, racedash.py format_result)

Durations are embedded as exact natural numbers of milliseconds; the
source's 3-decimal float rendering is exact at this resolution. -/

/-- Left zero-padding to width `w`, as Python's zero-padded format
specifiers. -/
def pad (w : ℕ) (s : String) : String :=
  ⟨List.replicate (w - s.data.length) '0' ++ s.data⟩

/-- The decimal digit character of `d` (callers pass `n % 10`). -/
def digitChar (d : ℕ) : Char :=
  if d = 0 then '0' else if d = 1 then '1' else if d = 2 then '2'
  else if d = 3 then '3' else if d = 4 then '4' else if d = 5 then '5'
  else if d = 6 then '6' else if d = 7 then '7' else if d = 8 then '8' else '9'

/-- Decimal digits of `n` accumulated onto `acc`; `fuel` bounds the
recursion (any fuel at least the digit count gives all digits). -/
def natDigits : ℕ → ℕ → List Char → List Char
  | 0, _, acc => acc
  | f + 1, n, acc => if n = 0 then acc else natDigits f (n / 10) (digitChar (n % 10) :: acc)

/-- The decimal rendering of a natural number. -/
def natStr (n : ℕ) : String := if n = 0 then "0" else ⟨natDigits n n []⟩

/-- `n` milliseconds rendered as seconds with three decimals, Python's
f"{sec:.3f}" on a millisecond-exact value. -/
def milliStr (n : ℕ) : String := natStr (n / 1000) ++ "." ++ pad 3 (natStr (n % 1000))

/-- Model of `fmt_time` (qualydash.py lines 106-109): None renders "-";
otherwise `m, sec = divmod(s, 60)` and the result is f"{int(m)}:{sec:06.3f}"
when m > 0, else f"{sec:.3f}". -/
def fmt_time : Option ℕ → String
  | none => "-"
  | some ms =>
    if 0 < ms / 60000 then natStr (ms / 60000) ++ ":" ++ pad 6 (milliStr (ms % 60000))
    else milliStr (ms % 60000)

/-- Model of the winner-time branch of `format_result` (racedash.py lines
163-170): None renders "N/A"; otherwise `m, s = divmod(t, 60)`;
`h, m = divmod(m, 60)`; `ms = int((t * 1000) % 1000)`; rendered as
f"{int(h)}:{int(m):02}:{int(s):02}.{ms:03}" when h > 0 and as
f"{int(m)}:{int(s):02}.{ms:03}" otherwise. -/
def format_result_time : Option ℕ → String
  | none => "N/A"
  | some ms =>
    if 0 < ms / 3600000 then
      natStr (ms / 3600000) ++ ":" ++ pad 2 (natStr (ms % 3600000 / 60000)) ++ ":" ++
        pad 2 (natStr (ms % 60000 / 1000)) ++ "." ++ pad 3 (natStr (ms % 1000))
    else
      natStr (ms % 3600000 / 60000) ++ ":" ++ pad 2 (natStr (ms % 60000 / 1000)) ++ "." ++
        pad 3 (natStr (ms % 1000))

/-- Python's f"{g:+.3f}s" on a millisecond-exact rational: an explicit
sign, the absolute value with three decimals, then "s". -/
def fmtSigned (g : ℚ) : String :=
  if round (g * 1000) < 0 then "-" ++ milliStr (-round (g * 1000)).toNat ++ "s"
  else "+" ++ milliStr (round (g * 1000)).toNat ++ "s"

/-- Model of qualydash.py line 167, the teammate-mode gap rendering:
f"{gap_val:+.3f}s" when the gap is nonzero, "-" when it is zero. -/
def gap_str_teammate (g : ℚ) : String := if g = 0 then "-" else fmtSigned g

/- ### Lemmas about the renderers -/

theorem natDigits_length_le :
    ∀ (f n : ℕ) (acc : List Char) (k : ℕ), n < 10 ^ k →
      (natDigits f n acc).length ≤ k + acc.length := by
  intro f
  induction f with
  | zero => intro n acc k _; simp [natDigits]
  | succ f ih =>
    intro n acc k hn
    by_cases h0 : n = 0
    · simp [natDigits, h0]
    · rw [natDigits, if_neg h0]
      rcases k with _ | k
      · omega
      · have hdiv : n / 10 < 10 ^ k := by
          rw [Nat.div_lt_iff_lt_mul (by norm_num)]
          calc n < 10 ^ (k + 1) := hn
            _ = 10 ^ k * 10 := by ring
        calc (natDigits f (n / 10) (digitChar (n % 10) :: acc)).length
            ≤ k + (digitChar (n % 10) :: acc).length := ih _ _ _ hdiv
          _ = (k + 1) + acc.length := by simp; omega

theorem natStr_length_le {n k : ℕ} (hn : n < 10 ^ k) (hk : 0 < k) :
    (natStr n).length ≤ k := by
  unfold natStr
  by_cases h0 : n = 0
  · rw [if_pos h0]; exact hk
  · rw [if_neg h0]
    have := natDigits_length_le n n [] k hn
    simpa [String.length] using this

theorem pad_length (w : ℕ) (s : String) : (pad w s).length = max w s.length := by
  show (List.replicate (w - s.data.length) '0' ++ s.data).length = max w s.length
  rw [List.length_append, List.length_replicate]
  show w - s.data.length + s.data.length = max w s.data.length
  omega

theorem milliStr_length_le {n : ℕ} (h : n < 100000) : (milliStr n).length ≤ 6 := by
  unfold milliStr
  rw [String.length_append, String.length_append, pad_length]
  have h1 : (natStr (n / 1000)).length ≤ 2 :=
    natStr_length_le (by omega : n / 1000 < 10 ^ 2) (by norm_num)
  have h2 : (natStr (n % 1000)).length ≤ 3 :=
    natStr_length_le (by omega : n % 1000 < 10 ^ 3) (by norm_num)
  have h3 : (("." : String)).length = 1 := rfl
  omega

theorem digitChar_ne_colon (d : ℕ) : digitChar d ≠ ':' := by
  unfold digitChar
  split_ifs
  all_goals decide

theorem mem_natDigits :
    ∀ (f n : ℕ) (acc : List Char) (c : Char), c ∈ natDigits f n acc →
      c ∈ acc ∨ ∃ d, c = digitChar d := by
  intro f
  induction f with
  | zero => intro n acc c hc; exact Or.inl hc
  | succ f ih =>
    intro n acc c hc
    by_cases h0 : n = 0
    · rw [natDigits, if_pos h0] at hc; exact Or.inl hc
    · rw [natDigits, if_neg h0] at hc
      rcases ih _ _ _ hc with hmem | hd
      · rcases List.mem_cons.mp hmem with rfl | hmem'
        · exact Or.inr ⟨n % 10, rfl⟩
        · exact Or.inl hmem'
      · exact Or.inr hd

theorem colon_not_mem_natStr (n : ℕ) : ':' ∉ (natStr n).data := by
  unfold natStr
  by_cases h0 : n = 0
  · rw [if_pos h0]; decide
  · rw [if_neg h0]
    intro hc
    rcases mem_natDigits n n [] ':' hc with hmem | ⟨d, hd⟩
    · simp at hmem
    · exact digitChar_ne_colon d hd.symm

theorem colon_not_mem_pad {w : ℕ} {s : String} (h : ':' ∉ s.data) :
    ':' ∉ (pad w s).data := by
  show ':' ∉ List.replicate (w - s.data.length) '0' ++ s.data
  intro hc
  rcases List.mem_append.mp hc with hrep | hdata
  · have := List.eq_of_mem_replicate hrep
    simp at this
  · exact h hdata

theorem colon_not_mem_milliStr (n : ℕ) : ':' ∉ (milliStr n).data := by
  unfold milliStr
  rw [String.data_append, String.data_append]
  intro hc
  rcases List.mem_append.mp hc with hc1 | hc2
  · rcases List.mem_append.mp hc1 with hc3 | hc4
    · exact colon_not_mem_natStr _ hc3
    · simp only [show ("." : String).data = ['.'] from rfl] at hc4
      simp at hc4
  · exact colon_not_mem_pad (colon_not_mem_natStr _) hc2

/-- C7 counterexample: a duration of 3690.123 seconds (more than an
hour) is rendered by the qualifying formatter as "61:30.123", not in the
H:MM:SS.mmm shape "1:01:30.123" the claim requires for durations of an
hour or more. -/
theorem C7_counterexample :
    fmt_time (some 3690123) = "61:30.123" ∧ "61:30.123" ≠ "1:01:30.123" := by
  constructor
  · decide
  · decide

/-- C7 (amended): the qualifying formatter renders a missing duration as
"-", durations below sixty seconds as SS.mmm with no minute component,
and durations of sixty seconds or more as M:SS.mmm — minutes unpadded
and unbounded, so an hour-long duration keeps this shape; the race
winner-time formatter renders a missing total as "N/A", totals of an
hour or more as H:MM:SS.mmm, but totals below sixty seconds with a zero
minute component; 90.123 s renders "1:30.123" and 59.999 s renders
"59.999". -/
theorem C7_duration_formatting :
    fmt_time none = "-" ∧ format_result_time none = "N/A" ∧
    fmt_time (some 90123) = "1:30.123" ∧ fmt_time (some 59999) = "59.999" ∧
    format_result_time (some 3690123) = "1:01:30.123" ∧
    format_result_time (some 59999) = "0:59.999" ∧
    (∀ ms : ℕ, ms < 60000 →
      fmt_time (some ms) = milliStr ms ∧ ':' ∉ (fmt_time (some ms)).data) ∧
    (∀ ms : ℕ, 60000 ≤ ms →
      fmt_time (some ms) = natStr (ms / 60000) ++ ":" ++ pad 6 (milliStr (ms % 60000)) ∧
      (pad 6 (milliStr (ms % 60000))).length = 6) ∧
    (∀ ms : ℕ, 3600000 ≤ ms →
      format_result_time (some ms) =
        natStr (ms / 3600000) ++ ":" ++ pad 2 (natStr (ms % 3600000 / 60000)) ++ ":" ++
          pad 2 (natStr (ms % 60000 / 1000)) ++ "." ++ pad 3 (natStr (ms % 1000)) ∧
      (pad 2 (natStr (ms % 3600000 / 60000))).length = 2 ∧
      (pad 2 (natStr (ms % 60000 / 1000))).length = 2 ∧
      (pad 3 (natStr (ms % 1000))).length = 3) := by
  refine ⟨rfl, rfl, by decide, by decide, by decide, by decide, ?_, ?_, ?_⟩
  · intro ms hms
    have hdiv : ms / 60000 = 0 := Nat.div_eq_of_lt hms
    have hmod : ms % 60000 = ms := Nat.mod_eq_of_lt hms
    constructor
    · show (if 0 < ms / 60000 then _ else milliStr (ms % 60000)) = milliStr ms
      rw [hdiv, hmod]
      simp
    · show ':' ∉ (if 0 < ms / 60000 then _ else milliStr (ms % 60000)).data
      rw [hdiv]
      simpa using colon_not_mem_milliStr (ms % 60000)
  · intro ms hms
    have hdiv : 0 < ms / 60000 := Nat.div_pos hms (by norm_num)
    constructor
    · show (if 0 < ms / 60000 then
          natStr (ms / 60000) ++ ":" ++ pad 6 (milliStr (ms % 60000)) else _) = _
      rw [if_pos hdiv]
    · rw [pad_length]
      have : (milliStr (ms % 60000)).length ≤ 6 := milliStr_length_le (by omega)
      omega
  · intro ms hms
    have hdiv : 0 < ms / 3600000 := Nat.div_pos hms (by norm_num)
    refine ⟨?_, ?_, ?_, ?_⟩
    · show (if 0 < ms / 3600000 then _ else _) = _
      rw [if_pos hdiv]
    · rw [pad_length]
      have : (natStr (ms % 3600000 / 60000)).length ≤ 2 :=
        natStr_length_le (by omega : ms % 3600000 / 60000 < 10 ^ 2) (by norm_num)
      omega
    · rw [pad_length]
      have : (natStr (ms % 60000 / 1000)).length ≤ 2 :=
        natStr_length_le (by omega : ms % 60000 / 1000 < 10 ^ 2) (by norm_num)
      omega
    · rw [pad_length]
      have : (natStr (ms % 1000)).length ≤ 3 :=
        natStr_length_le (by omega : ms % 1000 < 10 ^ 3) (by norm_num)
      omega

/-- C9 counterexample: with a singleton "Solo" team and a "Duo" team
whose two members set identical lap times, the singleton's conventional
gap 0 and the Duo member's genuinely measured gap 0 render identically as
"-": the sentinel is not distinguishable in the output. -/
def lapsC9 : List LapRow :=
  [⟨"SOL", "Solo", .valid 90⟩, ⟨"AAA", "Duo", .valid 95⟩, ⟨"BBB", "Duo", .valid 95⟩]

theorem C9_counterexample :
    (teamLaps (best lapsC9) "Solo").length = 1 ∧
    (teamLaps (best lapsC9) "Duo").length = 2 ∧
    teammate_gap (best lapsC9) ⟨"SOL", "Solo", 90⟩ = 0 ∧
    teammate_gap (best lapsC9) ⟨"AAA", "Duo", 95⟩ = 0 ∧
    gap_str_teammate (teammate_gap (best lapsC9) ⟨"SOL", "Solo", 90⟩) =
      gap_str_teammate (teammate_gap (best lapsC9) ⟨"AAA", "Duo", 95⟩) := by
  have hsolo : teammate_gap (best lapsC9) ⟨"SOL", "Solo", 90⟩ = 0 := by decide
  have hduo' : teammate_gap (best lapsC9) ⟨"AAA", "Duo", 95⟩ = (95 : ℚ) - 95 := rfl
  have hduo : teammate_gap (best lapsC9) ⟨"AAA", "Duo", 95⟩ = 0 := by
    rw [hduo']; norm_num
  refine ⟨by decide, by decide, hsolo, hduo, ?_⟩
  rw [hsolo, hduo]

/-- C9 (amended): a competitor whose team group has exactly one member
receives gap 0 by convention, and the zero gap is rendered as "-" rather
than as a literal signed zero such as "+0.000s"; however this rendering
is not distinguishable from a genuinely measured zero gap, since every
zero gap renders as "-". -/
theorem C9_singleton_gap (laps : List LapRow) (r : SessionRow) (_hr : r ∈ best laps)
    (hsolo : (teamLaps (best laps) r.team).length = 1) :
    teammate_gap (best laps) r = 0 ∧
    gap_str_teammate (teammate_gap (best laps) r) = "-" ∧
    gap_str_teammate (teammate_gap (best laps) r) ≠ "+0.000s" ∧
    ∀ g : ℚ, g = 0 → gap_str_teammate g = "-" := by
  have hg : teammate_gap (best laps) r = 0 := by
    rcases hl : teamLaps (best laps) r.team with _ | ⟨t, ts⟩
    · unfold teammate_gap
      rw [hl]
    · rcases ts with _ | ⟨t', ts'⟩
      · unfold teammate_gap
        rw [hl]
      · rw [hl] at hsolo
        simp at hsolo
  refine ⟨hg, ?_, ?_, ?_⟩
  · rw [hg]; rfl
  · rw [hg]; decide
  · intro g hg0; rw [hg0]; rfl

theorem C9_singleton_gap_witness :
    teammate_gap (best lapsC3) ⟨"HAM", "Mercedes", 91⟩ = 0 ∧
    gap_str_teammate (teammate_gap (best lapsC3) ⟨"HAM", "Mercedes", 91⟩) = "-" ∧
    gap_str_teammate (teammate_gap (best lapsC3) ⟨"HAM", "Mercedes", 91⟩) ≠ "+0.000s" ∧
    ∀ g : ℚ, g = 0 → gap_str_teammate g = "-" :=
  C9_singleton_gap lapsC3 ⟨"HAM", "Mercedes", 91⟩ (by decide) (by decide)

/-- A session whose two lap records both lack a parseable LapTime. -/
def lapsC8 : List LapRow :=
  [⟨"AAA", "Alpine", .malformed⟩, ⟨"BBB", "Alpine", .missing⟩]

/-- C8: malformed and missing time strings parse to None (the parser is
total, never raising) and such rows are excluded, so this session has an
empty ranking; the teammate branch then returns an empty result, but the
Gap-to-Pole branch evaluates `best.iloc[0]` on the empty frame and
raises IndexError (the `none` value) instead of returning an empty
result set. -/
theorem C8_zero_valid_laps :
    parse_time .malformed = none ∧ parse_time .missing = none ∧
    validLaps lapsC8 = [] ∧ best lapsC8 = [] ∧
    teammateGaps lapsC8 = [] ∧ gapToPole lapsC8 = none := by decide

/- ### Helper lemmas about gap-to-pole and the bar percentages -/

theorem gapToPole_eq {laps : List LapRow} {g : List (SessionRow × ℚ)}
    (hg : gapToPole laps = some g) :
    ∃ b bs, best laps = b :: bs ∧
      g = (b :: bs).map (fun r => (r, r.lapTime - b.lapTime)) := by
  unfold gapToPole at hg
  rcases hb : best laps with _ | ⟨b, bs⟩
  · rw [hb] at hg; exact absurd hg (by simp)
  · rw [hb] at hg
    exact ⟨b, bs, rfl, (Option.some_injective _ hg).symm⟩

theorem gapToPole_nonneg {laps : List LapRow} {g : List (SessionRow × ℚ)}
    (hg : gapToPole laps = some g) : ∀ q ∈ g, 0 ≤ q.2 := by
  rcases gapToPole_eq hg with ⟨b, bs, hb, hge⟩
  intro q hq
  rw [hge] at hq
  rcases List.mem_map.mp hq with ⟨x, hx, hqx⟩
  have hsorted := best_sorted laps
  rw [hb] at hsorted
  rcases List.pairwise_cons.mp hsorted with ⟨hball, _⟩
  have hble : b.lapTime ≤ x.lapTime := by
    rcases List.mem_cons.mp hx with rfl | hx'
    · exact le_refl _
    · exact hball x hx'
  subst hqx
  simpa using hble

theorem le_colMax : ∀ {l : List ℚ} {x m : ℚ}, x ∈ l → colMax l = some m → x ≤ m := by
  intro l
  induction l with
  | nil => intro x m hx; simp at hx
  | cons y ys ih =>
    intro x m hx hm
    rw [colMax] at hm
    rcases hys : colMax ys with _ | m'
    · rw [hys] at hm
      simp only [Option.elim] at hm
      rcases List.mem_cons.mp hx with rfl | hx'
      · exact le_of_eq (Option.some_injective _ hm)
      · rcases hys' : ys with _ | _
        · rw [hys'] at hx'; simp at hx'
        · rw [hys'] at hys; rw [colMax] at hys; simp at hys
    · rw [hys] at hm
      simp only [Option.elim] at hm
      have hmm : m = max y m' := (Option.some_injective _ hm).symm
      rcases List.mem_cons.mp hx with rfl | hx'
      · rw [hmm]; exact le_max_left _ _
      · calc x ≤ m' := ih hx' hys
          _ ≤ m := hmm ▸ le_max_right _ _

theorem colMax_mem : ∀ {l : List ℚ} {m : ℚ}, colMax l = some m → m ∈ l := by
  intro l
  induction l with
  | nil => intro m hm; rw [colMax] at hm; simp at hm
  | cons y ys ih =>
    intro m hm
    rw [colMax] at hm
    rcases hys : colMax ys with _ | m'
    · rw [hys] at hm
      simp only [Option.elim] at hm
      have hym : y = m := Option.some_injective _ hm
      rw [← hym]
      exact List.mem_cons_self _ _
    · rw [hys] at hm
      simp only [Option.elim] at hm
      have hmm : m = max y m' := (Option.some_injective _ hm).symm
      rcases max_choice y m' with hc | hc
      · rw [hmm, hc]; exact List.mem_cons_self _ _
      · rw [hmm, hc]; exact List.mem_cons_of_mem _ (ih hys)

/-- C10: in gap-to-pole mode the bar-width computation never divides by
zero: the divisor is positive, it is 1 when every gap is 0, a
nonpositive divisor yields percentage 0, and every row's percentage lies
in the interval from 0 to 100. -/
theorem C10_bar_percentages (laps : List LapRow) (g : List (SessionRow × ℚ))
    (hg : gapToPole laps = some g) :
    0 < max_gap laps ∧
    ((∀ q ∈ g, q.2 = 0) → max_gap laps = 1) ∧
    (∀ x : ℚ, pct 0 x = 0) ∧
    (∀ q ∈ g, 0 ≤ pct (max_gap laps) q.2 ∧ pct (max_gap laps) q.2 ≤ 100) := by
  rcases gapToPole_eq hg with ⟨b, bs, _, hge⟩
  have hne : g.map (fun q => q.2) ≠ [] := by rw [hge]; simp
  obtain ⟨m, hm⟩ : ∃ m, colMax (g.map (fun q => q.2)) = some m := by
    rcases hl : g.map (fun q => q.2) with _ | ⟨x, xs⟩
    · exact absurd hl hne
    · exact ⟨(colMax xs).elim x (fun m' => max x m'), by rw [hl]; rfl⟩
  have hmax : max_gap laps = if m = 0 then 1 else m := by
    unfold max_gap
    rw [hg]
    show (match colMax (List.map (fun q => q.2) g) with
      | none => (1 : ℚ)
      | some m => if m = 0 then 1 else m) = if m = 0 then 1 else m
    rw [hm]
  have hzero_mem : (0 : ℚ) ∈ g.map (fun q => q.2) := by
    rw [hge]
    refine List.mem_map.mpr ⟨(b, b.lapTime - b.lapTime), ?_, sub_self _⟩
    exact List.mem_map.mpr ⟨b, List.mem_cons_self _ _, rfl⟩
  have hm0 : 0 ≤ m := le_colMax hzero_mem hm
  have hlem : ∀ q ∈ g, q.2 ≤ m := fun q hq =>
    le_colMax (List.mem_map.mpr ⟨q, hq, rfl⟩) hm
  have hpos : 0 < max_gap laps := by
    rw [hmax]
    by_cases h0 : m = 0
    · rw [if_pos h0]; norm_num
    · rw [if_neg h0]; exact lt_of_le_of_ne hm0 (Ne.symm h0)
  refine ⟨hpos, ?_, ?_, ?_⟩
  · intro hall
    have : m = 0 := by
      rcases List.mem_map.mp (colMax_mem hm) with ⟨q, hq, hqm⟩
      rw [← hqm]
      exact hall q hq
    rw [hmax, if_pos this]
  · intro x
    unfold pct
    rw [if_neg (by norm_num)]
  · intro q hq
    have hq0 : 0 ≤ q.2 := gapToPole_nonneg hg q hq
    unfold pct
    rw [if_pos hpos]
    by_cases h0 : m = 0
    · have hq2 : q.2 = 0 := le_antisymm (h0 ▸ hlem q hq) hq0
      rw [hq2]
      norm_num
    · have hmg : max_gap laps = m := by rw [hmax, if_neg h0]
      have hmpos : 0 < m := lt_of_le_of_ne hm0 (Ne.symm h0)
      constructor
      · positivity
      · rw [hmg]
        calc q.2 / m * 100 ≤ 1 * 100 :=
              mul_le_mul_of_nonneg_right ((div_le_one hmpos).mpr (hlem q hq)) (by norm_num)
          _ = 100 := by norm_num

theorem C10_bar_percentages_witness :
    0 < max_gap lapsC2 ∧
    ((∀ q ∈ [((⟨"VER", "Red Bull", 90⟩ : SessionRow), (90 : ℚ) - 90),
             ((⟨"LEC", "Ferrari", 91⟩ : SessionRow), (91 : ℚ) - 90)], q.2 = 0) →
      max_gap lapsC2 = 1) ∧
    (∀ x : ℚ, pct 0 x = 0) ∧
    (∀ q ∈ [((⟨"VER", "Red Bull", 90⟩ : SessionRow), (90 : ℚ) - 90),
            ((⟨"LEC", "Ferrari", 91⟩ : SessionRow), (91 : ℚ) - 90)],
      0 ≤ pct (max_gap lapsC2) q.2 ∧ pct (max_gap lapsC2) q.2 ≤ 100) :=
  C10_bar_percentages lapsC2
    [((⟨"VER", "Red Bull", 90⟩ : SessionRow), (90 : ℚ) - 90),
     ((⟨"LEC", "Ferrari", 91⟩ : SessionRow), (91 : ℚ) - 90)] rfl

/- ### Season cumulative aggregation (racedash.py lines 119-130) -/

/-- One row of the season lap table with the columns the season
aggregation reads: driver, round number, session label, official points.
In the source every lap row of a session carries the same merged
OfficialPoints value; the per-key max collapse makes the lap granularity
irrelevant. -/
structure PointsRow where
  driver : String
  round : ℕ
  session : String
  points : ℚ
deriving DecidableEq

/-- True when the pattern occurs at the head of the character list. -/
def leadsWith : List Char → List Char → Bool
  | [], _ => true
  | _ :: _, [] => false
  | p :: ps, c :: cs => p == c && leadsWith ps cs

/-- True when the pattern occurs contiguously anywhere in the list,
Python's `pat in s`. -/
def containsSeq (pat : List Char) : List Char → Bool
  | [] => leadsWith pat []
  | c :: cs => leadsWith pat (c :: cs) || containsSeq pat cs

/-- Model of `get_session_order` (racedash.py lines 119-120): 1 when the
session label contains "Sprint", else 2 — sprints sort before races
within a round. -/
def get_session_order (s : String) : ℕ :=
  if containsSeq "Sprint".data s.data then 1 else 2

/-- The group key of racedash.py line 125:
(Driver, RoundNumber, SessionOrder, Session). -/
def rowKey (r : PointsRow) : String × ℕ × ℕ × String :=
  (r.driver, r.round, get_session_order r.session, r.session)

/-- The maximum of the OfficialPoints of one group's rows
(`groupby(...)["OfficialPoints"].max()`); every key taken from the table
has a nonempty group, so the default is never used. -/
def groupMax (rows : List PointsRow) (k : String × ℕ × ℕ × String) : ℚ :=
  (colMax ((rows.filter (fun r => decide (rowKey r = k))).map (fun r => r.points))).getD 0

/-- One collapsed group of season_results (racedash.py line 125). -/
structure GroupRow where
  driver : String
  round : ℕ
  sessionOrder : ℕ
  session : String
  points : ℚ
deriving DecidableEq

/-- Lexicographic comparison of character lists by code point. -/
def charListLe : List Char → List Char → Bool
  | [], _ => true
  | _ :: _, [] => false
  | c :: cs, d :: ds =>
    if c.toNat < d.toNat then true
    else if d.toNat < c.toNat then false
    else charListLe cs ds

/-- String comparison by code points, the order pandas uses on string
key columns. -/
def strLe (a b : String) : Bool := charListLe a.data b.data

/-- The lexicographic order on group keys pandas uses when emitting
groups (groupby sorts by the grouping key). -/
def keyLe (a b : String × ℕ × ℕ × String) : Prop :=
  (a.1 ≠ b.1 ∧ strLe a.1 b.1 = true) ∨ (a.1 = b.1 ∧ (a.2.1 < b.2.1 ∨ (a.2.1 = b.2.1 ∧
    (a.2.2.1 < b.2.2.1 ∨ (a.2.2.1 = b.2.2.1 ∧ strLe a.2.2.2 b.2.2.2 = true)))))

instance : DecidableRel keyLe := fun a b => by unfold keyLe; infer_instance

/-- The collapsed groups of racedash.py line 125: one row per distinct
(driver, round, sessionOrder, session) key with the group's maximum
points, in pandas' key-sorted group order. -/
def grouped (rows : List PointsRow) : List GroupRow :=
  (List.insertionSort keyLe ((rows.map rowKey).dedup)).map
    (fun k => ⟨k.1, k.2.1, k.2.2.1, k.2.2.2, groupMax rows k⟩)

/-- The comparison of racedash.py line 126:
`sort_values(by=["RoundNumber", "SessionOrder"])`. -/
def groupLe (a b : GroupRow) : Prop :=
  a.round < b.round ∨ (a.round = b.round ∧ a.sessionOrder ≤ b.sessionOrder)

instance : DecidableRel groupLe := fun a b => by unfold groupLe; infer_instance

instance : IsTotal GroupRow groupLe := ⟨by intro a b; unfold groupLe; omega⟩

instance : IsTrans GroupRow groupLe := ⟨by intro a b c; unfold groupLe; omega⟩

/-- The group table after the sort of racedash.py line 126. -/
def sortedGroups (rows : List PointsRow) : List GroupRow :=
  List.insertionSort groupLe (grouped rows)

/-- Per-driver running state of the cumulative sum: the most recent
running total recorded for each driver. -/
def alookup (d : String) : List (String × ℚ) → Option ℚ
  | [] => none
  | (k, v) :: rest => if d = k then some v else alookup d rest

/-- Model of `groupby("Driver")["OfficialPoints"].cumsum()` (racedash.py
line 129): each row paired with the running sum of its driver's points
in row order. -/
def cumsumBy (acc : List (String × ℚ)) : List GroupRow → List (GroupRow × ℚ)
  | [] => []
  | r :: rs =>
    (r, (alookup r.driver acc).getD 0 + r.points) ::
      cumsumBy ((r.driver, (alookup r.driver acc).getD 0 + r.points) :: acc) rs

/-- One output row of season_results. -/
structure ResultRow where
  driver : String
  round : ℕ
  sessionOrder : ℕ
  session : String
  points : ℚ
  runningTotal : ℚ
  seasonTotal : ℚ
deriving DecidableEq

/-- Model of season_results (racedash.py lines 125-130): collapse each
group to its maximum points, sort by (round, session order), attach the
per-driver running total (cumsum) and the per-driver season total
(transform "sum"). -/
def season_results (rows : List PointsRow) : List ResultRow :=
  (cumsumBy [] (sortedGroups rows)).map (fun p =>
    ⟨p.1.driver, p.1.round, p.1.sessionOrder, p.1.session, p.1.points, p.2,
      (((sortedGroups rows).filter (fun x => decide (x.driver = p.1.driver))).map
        (fun x => x.points)).sum⟩)

/-- The partial sums of a list of points, starting from `c`. -/
def prefixSums (c : ℚ) : List ℚ → List ℚ
  | [] => []
  | x :: xs => (c + x) :: prefixSums (c + x) xs

/-- A driver's season total stated independently of the sort order: the
sum of the driver's per-key collapsed points. -/
def driverSeasonTotal (rows : List PointsRow) (d : String) : ℚ :=
  ((((rows.map rowKey).dedup).filter (fun k => decide (k.1 = d))).map
    (fun k => groupMax rows k)).sum

/- ### Lemmas about the season aggregation -/

theorem cumsumBy_map_fst : ∀ (l : List GroupRow) (acc : List (String × ℚ)),
    (cumsumBy acc l).map (fun p => p.1) = l := by
  intro l
  induction l with
  | nil => intro acc; rfl
  | cons r rs ih =>
    intro acc
    rw [cumsumBy, List.map_cons, ih]

theorem cumsumBy_filter (d : String) :
    ∀ (l : List GroupRow) (acc : List (String × ℚ)),
      ((cumsumBy acc l).filter (fun p => decide (p.1.driver = d))).map (fun p => p.2) =
        prefixSums ((alookup d acc).getD 0)
          ((l.filter (fun r => decide (r.driver = d))).map (fun r => r.points)) := by
  intro l
  induction l with
  | nil => intro acc; rfl
  | cons r rs ih =>
    intro acc
    rw [cumsumBy, List.filter_cons, List.filter_cons]
    by_cases hd : r.driver = d
    · have hdec : decide (r.driver = d) = true := by simpa using hd
      rw [hdec, if_pos rfl, if_pos rfl]
      rw [List.map_cons, List.map_cons, prefixSums, ih]
      have hacc : (alookup d ((r.driver, (alookup r.driver acc).getD 0 + r.points) :: acc)).getD 0 =
          (alookup d acc).getD 0 + r.points := by
        rw [alookup, if_pos hd.symm]
        rw [hd]
        rfl
      rw [hacc, hd]
    · have hdec : decide (r.driver = d) = false := by simpa using hd
      rw [hdec, if_neg (by simp), if_neg (by simp)]
      rw [ih]
      have hacc : alookup d ((r.driver, (alookup r.driver acc).getD 0 + r.points) :: acc) =
          alookup d acc := by
        rw [alookup, if_neg (fun h => hd h.symm)]
      rw [hacc]

theorem season_points_filter (rows : List PointsRow) (d : String) :
    ((cumsumBy [] (sortedGroups rows)).filter (fun p => decide (p.1.driver = d))).map
        (fun p => p.1.points) =
      ((sortedGroups rows).filter (fun r => decide (r.driver = d))).map (fun r => r.points) := by
  conv_rhs => rw [← cumsumBy_map_fst (sortedGroups rows) []]
  rw [List.filter_map, List.map_map]
  rfl

/-- The season input of the spec's worked example:
rounds [(1, Race, A, 25), (1, Race, B, 18), (2, Race, A, 18)]. -/
def exC4 : List PointsRow :=
  [⟨"A", 1, "Race", 25⟩, ⟨"B", 1, "Race", 18⟩, ⟨"A", 2, "Race", 18⟩]

/-- C4: the season table is ordered by round ascending and then by
session precedence with sprint (order 1) before race (order 2); each
driver's running totals are the prefix sums of that driver's points in
this order; on the spec's example, A's running totals are 25 then 43 and
B's is 18. -/
theorem C4_season_cumulative (rows : List PointsRow) :
    (season_results rows).Pairwise
      (fun a b => a.round < b.round ∨ (a.round = b.round ∧ a.sessionOrder ≤ b.sessionOrder)) ∧
    get_session_order "Sprint" = 1 ∧ get_session_order "Race" = 2 ∧
    (∀ d : String,
      ((season_results rows).filter (fun o => decide (o.driver = d))).map
          (fun o => o.runningTotal) =
        prefixSums 0
          (((season_results rows).filter (fun o => decide (o.driver = d))).map
            (fun o => o.points))) ∧
    ((season_results exC4).filter (fun o => decide (o.driver = "A"))).map
        (fun o => o.runningTotal) = [25, 43] ∧
    ((season_results exC4).filter (fun o => decide (o.driver = "B"))).map
        (fun o => o.runningTotal) = [18] := by
  refine ⟨?_, by decide, by decide, ?_, ?_, ?_⟩
  · have hsg : (sortedGroups rows).Pairwise groupLe := List.sorted_insertionSort groupLe _
    rw [← cumsumBy_map_fst (sortedGroups rows) []] at hsg
    have hcs := List.pairwise_map.mp hsg
    unfold season_results
    exact List.pairwise_map.mpr (hcs.imp (fun h => h))
  · intro d
    unfold season_results
    rw [List.filter_map, List.map_map, List.map_map]
    show ((cumsumBy [] (sortedGroups rows)).filter (fun p => decide (p.1.driver = d))).map
        (fun p => p.2) =
      prefixSums 0
        (((cumsumBy [] (sortedGroups rows)).filter (fun p => decide (p.1.driver = d))).map
          (fun p => p.1.points))
    rw [cumsumBy_filter d (sortedGroups rows) [], season_points_filter rows d]
    rfl
  · have h1 : ((season_results exC4).filter (fun o => decide (o.driver = "A"))).map
        (fun o => o.runningTotal) = [(0 : ℚ) + 25, (0 : ℚ) + 25 + 18] := rfl
    rw [h1]
    norm_num
  · have h1 : ((season_results exC4).filter (fun o => decide (o.driver = "B"))).map
        (fun o => o.runningTotal) = [(0 : ℚ) + 18] := rfl
    rw [h1]
    norm_num

theorem colMax_cons_of_mem {x : ℚ} {l : List ℚ} (hx : x ∈ l) :
    colMax (x :: l) = colMax l := by
  rcases hl : colMax l with _ | m
  · rcases l with _ | ⟨y, ys⟩
    · simp at hx
    · rw [colMax] at hl; simp at hl
  · rw [colMax, hl]
    show some (max x m) = some m
    rw [max_eq_right (le_colMax hx hl)]

theorem groupMax_cons_of_mem {rows : List PointsRow} {r : PointsRow} (hr : r ∈ rows)
    (k : String × ℕ × ℕ × String) : groupMax (r :: rows) k = groupMax rows k := by
  unfold groupMax
  rw [List.filter_cons]
  by_cases hk : rowKey r = k
  · have hdec : decide (rowKey r = k) = true := by simpa using hk
    rw [hdec, if_pos rfl, List.map_cons]
    have hmem : r.points ∈
        (rows.filter (fun x => decide (rowKey x = k))).map (fun x => x.points) :=
      List.mem_map.mpr ⟨r, List.mem_filter.mpr ⟨hr, by simpa using hk⟩, rfl⟩
    rw [colMax_cons_of_mem hmem]
  · have hdec : decide (rowKey r = k) = false := by simpa using hk
    rw [hdec, if_neg (by simp)]

/-- C5: prepending a duplicate of a row already present leaves the whole
season_results table unchanged — the per-key max collapse makes
duplicate rows idempotent, so no running or season cumulative total
moves. -/
theorem C5_duplicate_rows_idempotent (rows : List PointsRow) (r : PointsRow)
    (hr : r ∈ rows) : season_results (r :: rows) = season_results rows := by
  have hkeys : ((r :: rows).map rowKey).dedup = (rows.map rowKey).dedup := by
    rw [List.map_cons]
    exact List.dedup_cons_of_mem (List.mem_map.mpr ⟨r, hr, rfl⟩)
  have hgrouped : grouped (r :: rows) = grouped rows := by
    unfold grouped
    rw [hkeys]
    exact List.map_congr_left (fun k _ => by rw [groupMax_cons_of_mem hr k])
  unfold season_results sortedGroups
  rw [hgrouped]

theorem C5_duplicate_rows_idempotent_witness :
    season_results (⟨"A", 1, "Race", 25⟩ :: exC4) = season_results exC4 :=
  C5_duplicate_rows_idempotent exC4 ⟨"A", 1, "Race", 25⟩ (by decide)

theorem colMax_cons_eq (a : ℚ) (l : List ℚ) :
    colMax (a :: l) = some ((colMax l).elim a (fun m => max a m)) := rfl

theorem colMax_perm : ∀ {l l' : List ℚ}, l.Perm l' → colMax l = colMax l' := by
  intro l l' h
  induction h with
  | nil => rfl
  | cons x _ ih => rw [colMax_cons_eq, colMax_cons_eq, ih]
  | swap x y l =>
    rw [colMax_cons_eq, colMax_cons_eq, colMax_cons_eq, colMax_cons_eq]
    rcases colMax l with _ | m
    · exact congrArg some (max_comm y x)
    · exact congrArg some (max_left_comm y x m)
  | trans _ _ ih1 ih2 => rw [ih1, ih2]

theorem groupMax_perm {rows rows' : List PointsRow} (h : rows.Perm rows')
    (k : String × ℕ × ℕ × String) : groupMax rows k = groupMax rows' k := by
  unfold groupMax
  rw [colMax_perm ((h.filter _).map _)]

theorem sum_filter_sortedGroups (rows : List PointsRow) (d : String) :
    (((sortedGroups rows).filter (fun x => decide (x.driver = d))).map
      (fun x => x.points)).sum = driverSeasonTotal rows d := by
  have h1 : (sortedGroups rows).Perm (grouped rows) := List.perm_insertionSort groupLe _
  rw [List.Perm.sum_eq ((h1.filter _).map _)]
  unfold grouped
  rw [List.filter_map, List.map_map]
  have h2 : (List.insertionSort keyLe ((rows.map rowKey).dedup)).Perm
      ((rows.map rowKey).dedup) := List.perm_insertionSort keyLe _
  rw [List.Perm.sum_eq ((h2.filter _).map _)]
  unfold driverSeasonTotal
  rfl

/-- C6: every output row's season total equals the sum of that driver's
per-(round, sessionType) collapsed points values, and that sum is
unchanged by any permutation of the input rows. -/
theorem C6_season_total_order_independent (rows rows' : List PointsRow) (d : String)
    (hperm : rows.Perm rows') :
    (∀ o ∈ season_results rows, o.driver = d → o.seasonTotal = driverSeasonTotal rows d) ∧
    driverSeasonTotal rows d = driverSeasonTotal rows' d := by
  constructor
  · intro o ho hod
    unfold season_results at ho
    rcases List.mem_map.mp ho with ⟨p, _, rfl⟩
    show (((sortedGroups rows).filter (fun x => decide (x.driver = p.1.driver))).map
      (fun x => x.points)).sum = driverSeasonTotal rows d
    rw [show p.1.driver = d from hod]
    exact sum_filter_sortedGroups rows d
  · unfold driverSeasonTotal
    have hkeys : ((rows.map rowKey).dedup).Perm ((rows'.map rowKey).dedup) :=
      (hperm.map rowKey).dedup
    rw [List.Perm.sum_eq ((hkeys.filter (fun k => decide (k.1 = d))).map
      (fun k => groupMax rows k))]
    apply congrArg
    exact List.map_congr_left (fun k _ => groupMax_perm hperm k)

/-- The example season input with its rows in reverse order. -/
def exC4rev : List PointsRow :=
  [⟨"A", 2, "Race", 18⟩, ⟨"B", 1, "Race", 18⟩, ⟨"A", 1, "Race", 25⟩]

theorem C6_season_total_order_independent_witness :
    (∀ o ∈ season_results exC4, o.driver = "A" →
      o.seasonTotal = driverSeasonTotal exC4 "A") ∧
    driverSeasonTotal exC4 "A" = driverSeasonTotal exC4rev "A" :=
  C6_season_total_order_independent exC4 exC4rev "A" (by decide)

end F1
